import Mathlib

/-!
Verification of the updateinfo parse-filter-render core of
rancher/elemental-channels (Go sources under updatesparser/).

The Go code is shallowly embedded: machine times are Unix seconds as `Int`
(every `time.Time` the parser compares is built by `time.Unix(sec, 0)`, so
`Before`/`After` coincide with `<` on the seconds), the XML token stream is a
list of already-tokenised elements, errors are `Except`, and the caller
supplied handler with its captured mutable state becomes an explicit
state-passing function.
-/

namespace UpdatesParser

/-! ### Record model, from pkg/types/updateinfo.go -/

/-- One cross reference of an update; `updateinfo.go` lines 75-81.  The URL is
kept as its decoded canonical string, since no claim exercises URL parsing. -/
structure Reference where
  url : String
  id : String
  title : String
  rtype : String
deriving DecidableEq, Repr

/-- One affected RPM package; `updateinfo.go` lines 101-108. -/
structure Package where
  name : String
  version : String
  release : String
  arch : String
  filename : String
deriving DecidableEq, Repr

/-- One update entry; `updateinfo.go` lines 32-44.  `Issued.Date` is a
`*date` pointer that is nil when the element carries no issued date, so the
issued field is `Option Int` holding Unix seconds (`date` wraps `time.Time`
constructed by `time.Unix(ts, 0)`). -/
structure Update where
  utype : String
  status : String
  id : String
  title : String
  severity : String
  release : String
  issued : Option Int
  references : List Reference
  description : String
  packages : List Package
deriving DecidableEq, Repr

/-! ### strconv.ParseInt / strconv.FormatInt models -/

/-- Numeric value of an ASCII digit character, `'0'` being 48. -/
def digitVal (c : Char) : Nat := c.toNat - 48

/-- Whether `c` is an ASCII decimal digit. -/
def isDigitChar (c : Char) : Bool := 48 ≤ c.toNat && c.toNat ≤ 57

/-- Models `strconv.ParseUint(s, 10, 64)` on the digit part: every character
must be a decimal digit and at least one digit must be present; the value is
accumulated most-significant first, exactly as the Go loop does. -/
def parseUintDigits (l : List Char) : Option Nat :=
  if l = [] then none
  else if l.all isDigitChar then some (l.foldl (fun a c => 10 * a + digitVal c) 0)
  else none

/-- Models `strconv.ParseInt(s, 10, 64)`: optional single leading sign, then
decimal digits, rejected when empty, non-numeric or outside the signed 64-bit
range. -/
def parseInt64 (s : String) : Option Int :=
  match s.data with
  | [] => none
  | c :: rest =>
    if c = '-' then
      match parseUintDigits rest with
      | none => none
      | some n => if n ≤ 2 ^ 63 then some (-(n : Int)) else none
    else if c = '+' then
      match parseUintDigits rest with
      | none => none
      | some n => if n ≤ 2 ^ 63 - 1 then some (n : Int) else none
    else
      match parseUintDigits (c :: rest) with
      | none => none
      | some n => if n ≤ 2 ^ 63 - 1 then some (n : Int) else none

/-- Little-endian decimal digits of `n`, with enough fuel (`fuel ≥ n`). -/
def natDigitsLE : Nat → Nat → List Nat
  | 0, _ => []
  | fuel + 1, n => if n = 0 then [] else n % 10 :: natDigitsLE fuel (n / 10)

/-- Models `strconv.FormatUint(n, 10)`: the usual decimal rendering. -/
def formatNat (n : Nat) : String :=
  if n = 0 then "0"
  else String.mk ((natDigitsLE n n).reverse.map (fun d => Char.ofNat (48 + d)))

/-- Models `strconv.FormatInt(i, 10)`. -/
def formatInt (i : Int) : String :=
  if i < 0 then "-" ++ formatNat i.natAbs else formatNat i.natAbs

/-! ### Custom (un)marshallers, updateinfo.go lines 53-71 -/

/-- Models `date.UnmarshalXMLAttr` (updateinfo.go lines 62-71): parse the
attribute value with `strconv.ParseInt(v, 10, 64)` and keep the Unix seconds;
a parse failure is a decode error, modelled as `none`. -/
def dateUnmarshalXMLAttr (attrValue : String) : Option Int :=
  parseInt64 attrValue

/-- Models `Issued.MarshalJSON` (updateinfo.go lines 53-56): dereference the
`Date` pointer and emit `strconv.FormatInt(t.Unix(), 10)` wrapped in quotes by
`%q`.  The dereference has no nil guard, so a nil `Date` has no defined
result: that is modelled as `none`. -/
def IssuedMarshalJSON : Option Int → Option String
  | none => none
  | some ts => some ("\"" ++ formatInt ts ++ "\"")

/-! ### Filter configuration, parser.go lines 56-140 -/

/-- `filterConfig`, parser.go lines 56-62.  Times are Unix seconds. -/
structure FilterConfig where
  beforeDate : Int
  afterDate : Int
  dateFormat : String
  pkgWhiteList : List String
  updateType : String
deriving DecidableEq, Repr

/-! ### The streaming parser, parser.go lines 203-250 -/

/-- The raw form of one `<update>` XML element before `DecodeElement` runs:
all plain fields as the decoder would bind them, and the issued element's
`date` attribute still as the raw string (`none` when the element or the
attribute is absent, which leaves `Issued.Date` nil). -/
structure RawUpdate where
  utype : String
  status : String
  id : String
  title : String
  severity : String
  release : String
  issuedAttr : Option String
  references : List Reference
  description : String
  packages : List Package
deriving DecidableEq, Repr

/-- Models `d.DecodeElement(&u, &t)` on one `update` element: the only custom
decoding step a claim exercises is the issued date attribute, which goes
through `date.UnmarshalXMLAttr`; its failure fails the whole element decode. -/
def decodeUpdate (r : RawUpdate) : Except String Update :=
  match r.issuedAttr with
  | none => .ok ⟨r.utype, r.status, r.id, r.title, r.severity, r.release,
      none, r.references, r.description, r.packages⟩
  | some a =>
    match dateUnmarshalXMLAttr a with
    | none => .error ("decoding element update: bad date attribute " ++ a)
    | some ts => .ok ⟨r.utype, r.status, r.id, r.title, r.severity, r.release,
        some ts, r.references, r.description, r.packages⟩

/-- One item of the decoder's token stream as `Parse` consumes it: a start
element named `update` (with the element body it will decode), any other
token (skipped), or a non-EOF tokenisation error.  End of the list is EOF. -/
inductive Token where
  | startUpdate (raw : RawUpdate)
  | other
  | tokenErr (msg : String)
deriving DecidableEq, Repr

/-- Errors `Parse` can return: a wrapped token error (parser.go line 213), a
wrapped element decode error (line 220), or the handler's own error value
returned verbatim (line 241). -/
inductive ParseErr (E : Type) where
  | tokenErr (msg : String)
  | decodeErr (msg : String)
  | handlerErr (e : E)
deriving DecidableEq, Repr

/-- The filter guard of `Parse`, parser.go lines 222-238, with each `continue`
rendered as `false` and reaching the `handler(&u)` call as `true`: the update
type check (line 222), the nil issued check (line 225), the strict date window
(line 229) and the package white list disjunction (lines 230-238). -/
def passesFilter (filter : FilterConfig) (u : Update) : Bool :=
  if filter.updateType ≠ "" ∧ u.utype ≠ filter.updateType then false
  else
    match u.issued with
    | none => false
    | some uDate =>
      if uDate < filter.beforeDate ∧ filter.afterDate < uDate then
        let pkgMatch := u.packages.any (fun pkg => filter.pkgWhiteList.contains pkg.name)
        decide (filter.pkgWhiteList.length = 0) || pkgMatch
      else false

/-- Models `Parse(reader, filter, handler)`, parser.go lines 205-250.  The
handler's captured mutable state is threaded explicitly as `s : σ`; a handler
error aborts the stream and is returned verbatim inside `.handlerErr`; a
decode or token error aborts with the wrapped message; the end of the token
list is `io.EOF` and terminates normally. -/
def Parse {σ E : Type} (tokens : List Token) (filter : FilterConfig)
    (handler : σ → Update → Except E σ) (s : σ) : Except (ParseErr E) σ :=
  match tokens with
  | [] => .ok s
  | t :: rest =>
    match t with
    | .tokenErr msg => .error (.tokenErr ("decoding token: " ++ msg))
    | .other => Parse rest filter handler s
    | .startUpdate raw =>
      match decodeUpdate raw with
      | .error msg => .error (.decodeErr msg)
      | .ok u =>
        if passesFilter filter u then
          match handler s u with
          | .error e => .error (.handlerErr e)
          | .ok s₂ => Parse rest filter handler s₂
        else Parse rest filter handler s

/-- A handler that just records every update it is invoked on, in order. -/
def collectHandler (s : List Update) (u : Update) : Except Empty (List Update) :=
  .ok (s.concat u)

/-- `Parse` instrumented with `collectHandler`: its result is exactly the
sequence of updates the handler was invoked on. -/
def parseCollect (tokens : List Token) (filter : FilterConfig) :
    Except (ParseErr Empty) (List Update) :=
  Parse tokens filter collectHandler []

/-! ### Output strategy, parser.go lines 252-306 -/

/-- One piece written to the output sink by the template strategy: a named
template section executed against the sink. -/
inductive Section where
  | header
  | join
  | body (u : Update)
  | footer
deriving DecidableEq, Repr

/-- What `ParseToOutput` leaves on the sink: the template strategy streams
sections, the JSON strategy serialises the buffered survivors as one array. -/
inductive RenderOut where
  | tmpl (sections : List Section)
  | json (updates : List Update)
deriving DecidableEq, Repr

/-- The closure state of the template-strategy handler in `ParseToOutput`:
its captured `first` flag plus the sections written to the sink so far. -/
abbrev TmplState := Bool × List Section

/-- The template-strategy handler of `ParseToOutput`, parser.go lines 269-282:
a `join` section before every record except the first, then the record's
`body`; the writes go to the sink, modelled by appending to the section
list. -/
def tmplHandler (st : TmplState) (u : Update) : Except Empty TmplState :=
  let out := if st.1 then st.2 else st.2.concat Section.join
  .ok (false, out.concat (Section.body u))

/-- Models `ParseToOutput(reader, filter, out)`, parser.go lines 252-306, for
a sink that never fails to write.  The template branch writes the `header`
before parsing, runs `Parse` with `tmplHandler`, and writes the `footer` after
a successful parse; the JSON branch buffers every surviving record and
serialises the whole ordered sequence afterwards. -/
def ParseToOutput (tokens : List Token) (filter : FilterConfig) (jsonOut : Bool) :
    Except (ParseErr Empty) RenderOut :=
  if !jsonOut then
    match Parse tokens filter tmplHandler (true, [Section.header]) with
    | .error e => .error e
    | .ok st => .ok (.tmpl (st.2.concat Section.footer))
  else
    match parseCollect tokens filter with
    | .error e => .error e
    | .ok updates => .ok (.json updates)

/-- Models `ParseFileToOutput(updateXML, filter, out)`, parser.go lines
308-321, over an abstract file system `fs` mapping a path to its token stream
(`none` when `os.Open` fails).  Lines 309-311 return `nil` when the open
fails, so nothing is parsed, nothing is written and no error is reported:
that outcome is `.ok none`. -/
def ParseFileToOutput (fs : String → Option (List Token)) (updateXML : String)
    (filter : FilterConfig) (jsonOut : Bool) : Except (ParseErr Empty) (Option RenderOut) :=
  match fs updateXML with
  | none => .ok none
  | some tokens =>
    match ParseToOutput tokens filter jsonOut with
    | .error e => .error e
    | .ok out => .ok (some out)

/-! ### Package white list loader, parser.go lines 323-348 -/

/-- Models Go `unicode.IsSpace` on the characters `strings.TrimSpace` trims;
space classes beyond Latin-1 are omitted, no claim involves them. -/
def isSpaceChar (c : Char) : Bool :=
  c.toNat = 9 || c.toNat = 10 || c.toNat = 11 || c.toNat = 12 || c.toNat = 13 ||
  c.toNat = 32 || c.toNat = 133 || c.toNat = 160

/-- Models `strings.TrimSpace`. -/
def trimSpace (s : String) : String :=
  String.mk (((s.data.dropWhile isSpaceChar).reverse.dropWhile isSpaceChar).reverse)

/-- The first field of `strings.Split(s, "|")`: everything before the first
pipe, or all of `s` when there is none (`Split` never returns an empty
slice, so indexing the first field never panics). -/
def firstPipeField (s : String) : String :=
  String.mk (s.data.takeWhile (fun c => c ≠ '|'))

/-- Models `readPackagesFile(pkgFile)`, parser.go lines 323-348, over an
abstract file system `fsLines` mapping a path to the lines `bufio.Scanner`
yields (`none` when `os.Open` fails).  The empty path returns the empty list
with no error; otherwise every scanned line contributes the first
pipe-delimited field of its trimmed text. -/
def readPackagesFile (fsLines : String → Option (List String)) (pkgFile : String) :
    Except String (List String) :=
  if pkgFile = "" then .ok []
  else
    match fsLines pkgFile with
    | none => .error ("failed opening file " ++ pkgFile)
    | some lines => .ok (lines.map (fun line => firstPipeField (trimSpace line)))

/-- The white-list loader as the spec sentence behind claim C7 describes it:
each non-empty line (after trimming) contributes its first pipe-delimited
field, and blank lines contribute nothing.  Stated only to be compared with
`readPackagesFile`, which is the code's behaviour. -/
def readPackagesFileSpec (fsLines : String → Option (List String)) (pkgFile : String) :
    Except String (List String) :=
  if pkgFile = "" then .ok []
  else
    match fsLines pkgFile with
    | none => .error ("failed opening file " ++ pkgFile)
    | some lines => .ok (lines.filterMap (fun line =>
        let t := trimSpace line
        if t = "" then none else some (firstPipeField t)))

/-! ### Filter options and CLI wiring, parser.go lines 71-140 and the
`rootCmd.RunE` flag handling -/

/-- `FilterOpt`, parser.go line 71: one configuration step that may fail. -/
abbrev FilterOpt := FilterConfig → Except String FilterConfig

/-- Models `parseTime(date, format)`, parser.go lines 350-364: with no format
the date is a Unix timestamp string through `strconv.ParseInt`; with a format
the string goes through `time.Parse`, kept abstract as `timeParse` since no
claim and no CLI path sets a format. -/
def parseTime (timeParse : String → String → Except String Int)
    (date format : String) : Except String Int :=
  if format = "" then
    match parseInt64 date with
    | none => .error ("failed parsing date " ++ date)
    | some i => .ok i
  else timeParse format date

/-- Models `WithBeforeTime`, parser.go lines 84-93. -/
def WithBeforeTime (timeParse : String → String → Except String Int)
    (before : String) : FilterOpt := fun f =>
  match parseTime timeParse before f.dateFormat with
  | .error e => .error e
  | .ok t => .ok { f with beforeDate := t }

/-- Models `WithAfterTime`, parser.go lines 97-106. -/
def WithAfterTime (timeParse : String → String → Except String Int)
    (after : String) : FilterOpt := fun f =>
  match parseTime timeParse after f.dateFormat with
  | .error e => .error e
  | .ok t => .ok { f with afterDate := t }

/-- Models `WithPackagesFile`, parser.go lines 109-118. -/
def WithPackagesFile (fsLines : String → Option (List String))
    (packagesFile : String) : FilterOpt := fun f =>
  match readPackagesFile fsLines packagesFile with
  | .error e => .error e
  | .ok pkgs => .ok { f with pkgWhiteList := pkgs }

/-- Models `WithUpdateType`, parser.go lines 121-126. -/
def WithUpdateType (uType : String) : FilterOpt := fun f =>
  .ok { f with updateType := uType }

/-- Models `NewFilterConfig(opts...)`, parser.go lines 128-140: the default
window is epoch 0 through `time.Now().AddDate(100, 0, 0)`, the latter passed
in as `now100` since it is read from the clock. -/
def NewFilterConfig (now100 : Int) (opts : List FilterOpt) :
    Except String FilterConfig :=
  opts.foldlM (fun f o => o f)
    { beforeDate := now100, afterDate := 0, dateFormat := "",
      pkgWhiteList := [], updateType := "" }

/-- The fixed update type the CLI's security switch selects. -/
def securityType : String := "security"

/-- Models the filter-option accumulation of `rootCmd.RunE` (the CLI wiring
file, lines 157-169): an empty flag string contributes no option; note the
`afterStr` branch appends `parser.WithBeforeTime(afterStr)`, exactly as the
source does. -/
def runEFilterOpts (timeParse : String → String → Except String Int)
    (fsLines : String → Option (List String))
    (beforeStr afterStr packagesF : String) (sec : Bool) : List FilterOpt :=
  (if beforeStr ≠ "" then [WithBeforeTime timeParse beforeStr] else []) ++
  (if afterStr ≠ "" then [WithBeforeTime timeParse afterStr] else []) ++
  (if packagesF ≠ "" then [WithPackagesFile fsLines packagesF] else []) ++
  (if sec then [WithUpdateType securityType] else [])

/-- The FilterConfig `rootCmd.RunE` builds from its flags: the option list of
`runEFilterOpts` applied by `NewFilterConfig`. -/
def runEFilterConfig (timeParse : String → String → Except String Int)
    (fsLines : String → Option (List String)) (now100 : Int)
    (beforeStr afterStr packagesF : String) (sec : Bool) :
    Except String FilterConfig :=
  NewFilterConfig now100 (runEFilterOpts timeParse fsLines beforeStr afterStr packagesF sec)


/-! ### Helper lemmas about the parser and its filter guard -/

/-- The Go guard sequence of parser.go lines 222-238, written as the
conjunction of the four conditions the spec states. -/
theorem passesFilter_iff (f : FilterConfig) (u : Update) :
    passesFilter f u = true ↔
      ((f.updateType ≠ "" → u.utype = f.updateType) ∧
       u.issued.isSome ∧
       (∀ d, u.issued = some d → f.afterDate < d ∧ d < f.beforeDate) ∧
       (f.pkgWhiteList = [] ∨ ∃ p ∈ u.packages, p.name ∈ f.pkgWhiteList)) := by
  rcases hiss : u.issued with - | d
  · simp [passesFilter, hiss]
  · simp only [passesFilter, hiss, Option.isSome_some, true_and, Option.some.injEq]
    by_cases h₁ : f.updateType ≠ "" ∧ u.utype ≠ f.updateType
    · rw [if_pos h₁]
      simp only [Bool.false_eq_true, false_iff, not_and]
      rintro hA
      exact absurd (absurd (hA h₁.1) h₁.2) not_false
    · rw [if_neg h₁]
      have hA : f.updateType ≠ "" → u.utype = f.updateType := by
        intro hne; by_contra hut; exact h₁ ⟨hne, hut⟩
      by_cases h₂ : d < f.beforeDate ∧ f.afterDate < d
      · rw [if_pos h₂]
        constructor
        · intro h
          refine ⟨hA, fun d₂ hd₂ => by rw [← hd₂]; exact ⟨h₂.2, h₂.1⟩, ?_⟩
          rcases Bool.or_eq_true_iff.mp h with hlen | hany
          · exact Or.inl (List.length_eq_zero.mp (of_decide_eq_true hlen))
          · rcases List.any_eq_true.mp hany with ⟨p, hp, hmem⟩
            exact Or.inr ⟨p, hp, List.elem_iff.mp hmem⟩
        · rintro ⟨-, -, hD⟩
          refine Bool.or_eq_true_iff.mpr ?_
          rcases hD with hnil | ⟨p, hp, hmem⟩
          · exact Or.inl (decide_eq_true (by simp [hnil]))
          · exact Or.inr (List.any_eq_true.mpr ⟨p, hp, List.elem_iff.mpr hmem⟩)
      · rw [if_neg h₂]
        simp only [Bool.false_eq_true, false_iff, not_and]
        intro _ hC
        rcases hC d rfl with ⟨ha, hb⟩
        intro _
        exact h₂ ⟨hb, ha⟩

/-- Unfolding equation of `Parse` at end of input (io.EOF). -/
theorem Parse_nil {σ E : Type} (f : FilterConfig) (handler : σ → Update → Except E σ) (s : σ) :
    Parse [] f handler s = .ok s := rfl

/-- Unfolding equation of `Parse` at a skipped token. -/
theorem Parse_cons_other {σ E : Type} (f : FilterConfig) (handler : σ → Update → Except E σ)
    (s : σ) (rest : List Token) :
    Parse (Token.other :: rest) f handler s = Parse rest f handler s := rfl

/-- Unfolding equation of `Parse` at a non-EOF token error. -/
theorem Parse_cons_tokenErr {σ E : Type} (f : FilterConfig) (handler : σ → Update → Except E σ)
    (s : σ) (msg : String) (rest : List Token) :
    Parse (Token.tokenErr msg :: rest) f handler s =
      .error (.tokenErr ("decoding token: " ++ msg)) := rfl

/-- Unfolding equation of `Parse` at an `update` start element: decode,
guard, invoke the handler, in the order of parser.go lines 217-244. -/
theorem Parse_cons_startUpdate {σ E : Type} (f : FilterConfig) (handler : σ → Update → Except E σ)
    (s : σ) (raw : RawUpdate) (rest : List Token) :
    Parse (Token.startUpdate raw :: rest) f handler s =
      (match decodeUpdate raw with
      | .error msg => .error (.decodeErr msg)
      | .ok u =>
        if passesFilter f u then
          match handler s u with
          | .error e => .error (.handlerErr e)
          | .ok s₂ => Parse rest f handler s₂
        else Parse rest f handler s) := rfl

/-- Every update `Parse` invokes `collectHandler` on was either already in
the accumulator or passed the filter guard. -/
theorem parse_collect_mem (tokens : List Token) (f : FilterConfig) :
    ∀ (s l : List Update), Parse tokens f collectHandler s = .ok l →
      ∀ u ∈ l, u ∈ s ∨ passesFilter f u = true := by
  induction tokens with
  | nil =>
    intro s l h u hu
    rw [Parse_nil] at h
    injection h with h
    subst h
    exact Or.inl hu
  | cons t rest ih =>
    intro s l h u hu
    match t with
    | .tokenErr msg =>
      rw [Parse_cons_tokenErr] at h
      exact absurd h (by simp)
    | .other =>
      rw [Parse_cons_other] at h
      exact ih s l h u hu
    | .startUpdate raw =>
      rw [Parse_cons_startUpdate] at h
      rcases hdec : decodeUpdate raw with msg | v
      · rw [hdec] at h
        exact absurd h (by simp)
      · rw [hdec] at h
        by_cases hp : passesFilter f v = true
        · simp only [hp, if_true, collectHandler] at h
          rcases ih (s.concat v) l h u hu with hin | hpass
          · rcases (by simpa [List.concat_eq_append] using hin : u ∈ s ∨ u = v) with hs | rfl
            · exact Or.inl hs
            · exact Or.inr hp
          · exact Or.inr hpass
        · simp only [hp, if_false] at h
          exact ih s l h u hu

/-- An update the guard lets through has an issued date. -/
theorem passesFilter_issued_isSome (f : FilterConfig) (u : Update)
    (h : passesFilter f u = true) : u.issued.isSome := by
  rcases ((passesFilter_iff f u).mp h) with ⟨-, hB, -, -⟩
  exact hB

/-! ### Concrete fixtures used by the witness theorems -/

/-- A filter window (1000, 2000000000) with no type or package constraint. -/
def fcfgW : FilterConfig := ⟨2000000000, 1000, "", [], ""⟩

/-- A sample package. -/
def pkgW : Package := ⟨"pkg-a", "1.0", "1", "x86_64", "pkg-a.rpm"⟩

/-- A raw update element with a valid issued date inside the window. -/
def rawW : RawUpdate :=
  ⟨"security", "stable", "SUSE-RU-1", "Update one", "important", "",
   some "1700000000", [], "desc one", [pkgW]⟩

/-- The decoded form of `rawW`. -/
def uW : Update :=
  ⟨"security", "stable", "SUSE-RU-1", "Update one", "important", "",
   some 1700000000, [], "desc one", [pkgW]⟩

/-- A raw update element with no issued date. -/
def rawNoDateW : RawUpdate :=
  ⟨"bugfix", "stable", "SUSE-RU-2", "Update two", "low", "",
   none, [], "desc two", []⟩

/-- The decoded form of `rawNoDateW`. -/
def uNoDateW : Update :=
  ⟨"bugfix", "stable", "SUSE-RU-2", "Update two", "low", "",
   none, [], "desc two", []⟩

/-- A raw update element issued exactly at `fcfgW.afterDate`. -/
def rawBoundaryW : RawUpdate :=
  ⟨"security", "stable", "SUSE-RU-3", "Update three", "moderate", "",
   some "1000", [], "desc three", []⟩

/-- The decoded form of `rawBoundaryW`. -/
def uBoundaryW : Update :=
  ⟨"security", "stable", "SUSE-RU-3", "Update three", "moderate", "",
   some 1000, [], "desc three", []⟩

/-- A raw update element whose issued date attribute is not an integer. -/
def rawBadW : RawUpdate :=
  ⟨"security", "stable", "SUSE-RU-4", "Update four", "low", "",
   some "not-a-number", [], "desc four", []⟩

/-- A handler that always fails with a fixed error value. -/
def badHandler : Unit → Update → Except String Unit := fun _ _ => .error "boom"

/-! ### Claims C1-C4 -/

/-- C1: for every update element decoded by `Parse`, the handler is invoked if
and only if the update's type equals a non-empty `filterConfig.updateType`
exactly when one is set, the issued date is present, the issued date lies
strictly inside the `(afterDate, beforeDate)` window, and the package
allow-list is empty or contains the name of one of the update's packages. -/
theorem c1_handler_invoked_iff {σ E : Type} (f : FilterConfig)
    (handler : σ → Update → Except E σ) (s : σ) (raw : RawUpdate) (u : Update)
    (rest : List Token) (hdec : decodeUpdate raw = .ok u) :
    (Parse (Token.startUpdate raw :: rest) f handler s =
      (if passesFilter f u then
        match handler s u with
        | .error e => .error (.handlerErr e)
        | .ok s₂ => Parse rest f handler s₂
      else Parse rest f handler s)) ∧
    (passesFilter f u = true ↔
      ((f.updateType ≠ "" → u.utype = f.updateType) ∧
       u.issued.isSome ∧
       (∀ d, u.issued = some d → f.afterDate < d ∧ d < f.beforeDate) ∧
       (f.pkgWhiteList = [] ∨ ∃ p ∈ u.packages, p.name ∈ f.pkgWhiteList))) := by
  refine ⟨?_, passesFilter_iff f u⟩
  rw [Parse_cons_startUpdate, hdec]

/-- Witness for C1 at a concrete update element and filter. -/
theorem c1_handler_invoked_iff_witness :
    (Parse [Token.startUpdate rawW] fcfgW collectHandler [] =
      (if passesFilter fcfgW uW then
        match collectHandler [] uW with
        | .error e => .error (.handlerErr e)
        | .ok s₂ => Parse [] fcfgW collectHandler s₂
      else Parse [] fcfgW collectHandler [])) ∧
    (passesFilter fcfgW uW = true ↔
      ((fcfgW.updateType ≠ "" → uW.utype = fcfgW.updateType) ∧
       uW.issued.isSome ∧
       (∀ d, uW.issued = some d → fcfgW.afterDate < d ∧ d < fcfgW.beforeDate) ∧
       (fcfgW.pkgWhiteList = [] ∨ ∃ p ∈ uW.packages, p.name ∈ fcfgW.pkgWhiteList))) :=
  c1_handler_invoked_iff fcfgW collectHandler [] rawW uW [] (by rfl)

/-- C2: an update whose issued date is absent is never passed to the handler,
so it never appears in the invocation sequence, for every filter
configuration. -/
theorem c2_absent_issued_never_emitted (f : FilterConfig) (tokens : List Token)
    (l : List Update) (u : Update) (h : parseCollect tokens f = .ok l)
    (hu : u.issued = none) : u ∉ l := by
  intro hmem
  rcases parse_collect_mem tokens f [] l h u hmem with hin | hpass
  · simp at hin
  · have hsome := passesFilter_issued_isSome f u hpass
    rw [hu] at hsome
    simp at hsome

/-- Witness for C2: a stream holding a dated update and a dateless one emits
only the dated one. -/
theorem c2_absent_issued_never_emitted_witness : uNoDateW ∉ [uW] :=
  c2_absent_issued_never_emitted fcfgW
    [Token.startUpdate rawW, Token.startUpdate rawNoDateW] [uW] uNoDateW
    (by rfl) (by rfl)

/-- C3: the date window is strict-exclusive on both ends: an update whose
issued timestamp equals `afterDate` or `beforeDate` exactly is skipped, the
handler is not invoked and the parse moves on unchanged. -/
theorem c3_boundary_excluded {σ E : Type} (f : FilterConfig)
    (handler : σ → Update → Except E σ) (s : σ) (raw : RawUpdate) (u : Update)
    (d : Int) (rest : List Token) (hdec : decodeUpdate raw = .ok u)
    (hd : u.issued = some d) (hb : d = f.afterDate ∨ d = f.beforeDate) :
    Parse (Token.startUpdate raw :: rest) f handler s = Parse rest f handler s := by
  have hpf : ¬ passesFilter f u = true := by
    intro hpass
    rcases (passesFilter_iff f u).mp hpass with ⟨-, -, hC, -⟩
    rcases hC d hd with ⟨ha, hb₂⟩
    rcases hb with rfl | rfl
    · exact lt_irrefl _ ha
    · exact lt_irrefl _ hb₂
  rw [Parse_cons_startUpdate, hdec]
  simp [hpf]

/-- Witness for C3: an update issued exactly at the window's lower bound. -/
theorem c3_boundary_excluded_witness :
    Parse [Token.startUpdate rawBoundaryW] fcfgW collectHandler [] =
      Parse [] fcfgW collectHandler [] :=
  c3_boundary_excluded fcfgW collectHandler [] rawBoundaryW uBoundaryW 1000 []
    (by rfl) (by rfl) (Or.inl (by rfl))

/-- C4: `Parse` returns the first error it meets and treats end of input as
normal termination: the empty stream returns the state unchanged with no
error; a handler error aborts immediately with that exact error value; a
non-integer issued date attribute makes the element decode fail, so `Parse`
returns a decode error whatever the handler is, hence without invoking it on
that record. -/
theorem c4_first_error_semantics :
    (∀ (σ E : Type) (f : FilterConfig) (handler : σ → Update → Except E σ) (s : σ),
      Parse [] f handler s = .ok s) ∧
    (∀ (σ E : Type) (f : FilterConfig) (handler : σ → Update → Except E σ) (s : σ)
      (raw : RawUpdate) (u : Update) (rest : List Token) (e : E),
      decodeUpdate raw = .ok u → passesFilter f u = true → handler s u = .error e →
      Parse (Token.startUpdate raw :: rest) f handler s = .error (.handlerErr e)) ∧
    (∀ (σ E : Type) (f : FilterConfig) (handler : σ → Update → Except E σ) (s : σ)
      (raw : RawUpdate) (a : String) (rest : List Token),
      raw.issuedAttr = some a → parseInt64 a = none →
      Parse (Token.startUpdate raw :: rest) f handler s =
        .error (.decodeErr ("decoding element update: bad date attribute " ++ a))) := by
  refine ⟨fun σ E f handler s => rfl, ?_, ?_⟩
  · intro σ E f handler s raw u rest e hdec hpass herr
    rw [Parse_cons_startUpdate, hdec]
    simp [hpass, herr]
  · intro σ E f handler s raw a rest hattr hbad
    have hdec : decodeUpdate raw =
        .error ("decoding element update: bad date attribute " ++ a) := by
      simp [decodeUpdate, dateUnmarshalXMLAttr, hattr, hbad]
    rw [Parse_cons_startUpdate, hdec]

/-- Witness for C4 at concrete streams: EOF at once, a failing handler, and a
`not-a-number` issued date. -/
theorem c4_first_error_semantics_witness :
    (Parse [] fcfgW collectHandler ([] : List Update) = .ok []) ∧
    (Parse [Token.startUpdate rawW] fcfgW badHandler () = .error (.handlerErr "boom")) ∧
    (Parse [Token.startUpdate rawBadW] fcfgW badHandler () =
      .error (.decodeErr ("decoding element update: bad date attribute " ++ "not-a-number"))) :=
  ⟨c4_first_error_semantics.1 (List Update) Empty fcfgW collectHandler [],
   c4_first_error_semantics.2.1 Unit String fcfgW badHandler () rawW uW [] "boom"
     (by rfl) (by rfl) (by rfl),
   c4_first_error_semantics.2.2 Unit String fcfgW badHandler () rawBadW "not-a-number" []
     (by rfl) (by rfl)⟩

/-! ### Claim C5: template section structure -/

/-- The sections the template handler appends while consuming a list of
surviving updates, given the current `first` flag: a `body` per update and a
`join` before every body except when `first` is still set. -/
def renderFrom : Bool → List Update → List Section
  | _, [] => []
  | true, u :: us => Section.body u :: renderFrom false us
  | false, u :: us => Section.join :: Section.body u :: renderFrom false us

/-- Whether a section is a `body` section. -/
def isBodySection : Section → Bool
  | .body _ => true
  | _ => false

/-- Running `Parse` with `collectHandler` from any accumulator prepends the
accumulator to the run from the empty one. -/
theorem parse_collect_acc (tokens : List Token) (f : FilterConfig) :
    ∀ acc : List Update, Parse tokens f collectHandler acc =
      (match Parse tokens f collectHandler [] with
       | .error e => .error e
       | .ok l => .ok (acc ++ l)) := by
  induction tokens with
  | nil =>
    intro acc
    rw [Parse_nil, Parse_nil]
    simp
  | cons t rest ih =>
    intro acc
    match t with
    | .tokenErr msg =>
      rw [Parse_cons_tokenErr, Parse_cons_tokenErr]
    | .other =>
      rw [Parse_cons_other, Parse_cons_other]
      exact ih acc
    | .startUpdate raw =>
      rw [Parse_cons_startUpdate, Parse_cons_startUpdate]
      rcases hdec : decodeUpdate raw with msg | v
      · simp only [hdec]
      · simp only [hdec]
        by_cases hp : passesFilter f v = true
        · simp only [hp, if_true, collectHandler]
          rw [ih (acc.concat v), ih ([].concat v)]
          rcases hres : Parse rest f collectHandler [] with e | l
          · rfl
          · simp [List.concat_eq_append]
        · rw [if_neg hp, if_neg hp]
          exact ih acc

/-- The template-strategy run of `Parse` is determined by the collect run:
it succeeds on the same streams, and appends exactly the sections
`renderFrom` describes for the surviving updates. -/
theorem parse_tmpl_run (tokens : List Token) (f : FilterConfig) :
    ∀ (first : Bool) (out : List Section),
      Parse tokens f tmplHandler (first, out) =
        (match Parse tokens f collectHandler [] with
         | .error e => .error e
         | .ok l => .ok ((first && l.isEmpty), out ++ renderFrom first l)) := by
  induction tokens with
  | nil =>
    intro first out
    rw [Parse_nil, Parse_nil]
    simp [renderFrom]
  | cons t rest ih =>
    intro first out
    match t with
    | .tokenErr msg =>
      rw [Parse_cons_tokenErr, Parse_cons_tokenErr]
    | .other =>
      rw [Parse_cons_other, Parse_cons_other]
      exact ih first out
    | .startUpdate raw =>
      rw [Parse_cons_startUpdate, Parse_cons_startUpdate]
      rcases hdec : decodeUpdate raw with msg | v
      · simp only [hdec]
      · simp only [hdec]
        by_cases hp : passesFilter f v = true
        · simp only [hp, if_true, tmplHandler, collectHandler]
          rw [ih false ((if first then out else out.concat Section.join).concat (Section.body v)),
            parse_collect_acc rest f ([].concat v)]
          rcases hres : Parse rest f collectHandler [] with e | l
          · rfl
          · cases first <;>
              simp [renderFrom, List.concat_eq_append, List.append_assoc]
        · rw [if_neg hp, if_neg hp]
          exact ih first out

/-- Starting from a fresh `first` flag, the handler's sections are the
bodies of the surviving updates interspersed with single `join`s. -/
theorem renderFrom_true_intersperse :
    ∀ l : List Update, renderFrom true l = List.intersperse Section.join (l.map Section.body)
  | [] => rfl
  | [u] => rfl
  | u :: v :: vs => by
    have ih := renderFrom_true_intersperse (v :: vs)
    rw [show renderFrom true (v :: vs) = Section.body v :: renderFrom false vs from rfl] at ih
    rw [show renderFrom true (u :: v :: vs) =
      Section.body u :: Section.join :: Section.body v :: renderFrom false vs from rfl]
    simp only [List.map_cons, List.intersperse_cons_cons]
    rw [← List.map_cons Section.body v vs, ← ih]

/-- The handler writes only `join` and `body` sections. -/
theorem mem_renderFrom :
    ∀ (b : Bool) (l : List Update) (x : Section), x ∈ renderFrom b l →
      x = Section.join ∨ ∃ u, x = Section.body u := by
  intro b l
  induction l generalizing b with
  | nil => intro x hx; cases b <;> simp [renderFrom] at hx
  | cons u us ih =>
    intro x hx
    cases b with
    | true =>
      rw [show renderFrom true (u :: us) = Section.body u :: renderFrom false us from rfl] at hx
      rcases List.mem_cons.mp hx with rfl | hx₂
      · exact Or.inr ⟨u, rfl⟩
      · exact ih false x hx₂
    | false =>
      rw [show renderFrom false (u :: us) =
        Section.join :: Section.body u :: renderFrom false us from rfl] at hx
      rcases List.mem_cons.mp hx with rfl | hx₂
      · exact Or.inl rfl
      · rcases List.mem_cons.mp hx₂ with rfl | hx₃
        · exact Or.inr ⟨u, rfl⟩
        · exact ih false x hx₃

/-- With `first` already cleared, one `join` is written per update. -/
theorem count_join_renderFrom_false :
    ∀ l : List Update, (renderFrom false l).count Section.join = l.length := by
  intro l
  induction l with
  | nil => rfl
  | cons u us ih =>
    rw [show renderFrom false (u :: us) =
      Section.join :: Section.body u :: renderFrom false us from rfl]
    simp [List.count_cons, ih]

/-- From a fresh `first` flag, `N` surviving updates produce `N - 1` `join`
sections. -/
theorem count_join_renderFrom_true :
    ∀ l : List Update, (renderFrom true l).count Section.join = l.length - 1 := by
  intro l
  cases l with
  | nil => rfl
  | cons u us =>
    rw [show renderFrom true (u :: us) = Section.body u :: renderFrom false us from rfl]
    simp [List.count_cons, count_join_renderFrom_false]

/-- One `body` section is written per surviving update. -/
theorem countP_body_renderFrom :
    ∀ (b : Bool) (l : List Update), (renderFrom b l).countP isBodySection = l.length := by
  intro b l
  induction l generalizing b with
  | nil => cases b <;> rfl
  | cons u us ih =>
    cases b with
    | true =>
      rw [show renderFrom true (u :: us) = Section.body u :: renderFrom false us from rfl]
      simp [List.countP_cons, ih false, isBodySection]
    | false =>
      rw [show renderFrom false (u :: us) =
        Section.join :: Section.body u :: renderFrom false us from rfl]
      simp [List.countP_cons, ih false, isBodySection]

/-- C5: under the template strategy, every successful run with `N` surviving
records renders one `header` first, the `N` bodies in order with exactly one
`join` strictly between consecutive bodies (`N - 1` joins, 0 when `N ≤ 1`),
and one `footer` last. -/
theorem c5_template_sections (tokens : List Token) (f : FilterConfig)
    (out : List Section) (h : ParseToOutput tokens f false = .ok (.tmpl out)) :
    ∃ l, parseCollect tokens f = .ok l ∧
      out = Section.header ::
        (List.intersperse Section.join (l.map Section.body) ++ [Section.footer]) ∧
      out.count Section.header = 1 ∧
      out.count Section.footer = 1 ∧
      out.countP isBodySection = l.length ∧
      out.count Section.join = l.length - 1 := by
  rw [show ParseToOutput tokens f false =
    (match Parse tokens f tmplHandler (true, [Section.header]) with
     | .error e => .error e
     | .ok st => .ok (.tmpl (st.2.concat Section.footer))) from rfl] at h
  rw [parse_tmpl_run tokens f true [Section.header]] at h
  rcases hres : Parse tokens f collectHandler [] with e | l
  · rw [hres] at h
    simp at h
  · rw [hres] at h
    simp only [] at h
    injection h with h
    injection h with h
    refine ⟨l, hres, ?_⟩
    have hout : out = Section.header :: (renderFrom true l ++ [Section.footer]) := by
      rw [← h]
      simp [List.concat_eq_append]
    refine ⟨by rw [hout, renderFrom_true_intersperse], ?_, ?_, ?_, ?_⟩
    · rw [hout]
      have h0 : (renderFrom true l).count Section.header = 0 := by
        rw [List.count_eq_zero]
        intro hmem
        rcases mem_renderFrom true l Section.header hmem with hj | ⟨u, hb⟩
        · exact absurd hj (by simp)
        · exact absurd hb (by simp)
      simp [List.count_cons, List.count_append, h0]
    · rw [hout]
      have h0 : (renderFrom true l).count Section.footer = 0 := by
        rw [List.count_eq_zero]
        intro hmem
        rcases mem_renderFrom true l Section.footer hmem with hj | ⟨u, hb⟩
        · exact absurd hj (by simp)
        · exact absurd hb (by simp)
      simp [List.count_cons, List.count_append, h0]
    · rw [hout]
      simp [List.countP_cons, List.countP_append, countP_body_renderFrom, isBodySection]
    · rw [hout]
      simp [List.count_cons, List.count_append, count_join_renderFrom_true]

/-- Witness for C5: a stream where exactly one record survives. -/
theorem c5_template_sections_witness :
    ∃ l, parseCollect [Token.startUpdate rawW, Token.startUpdate rawNoDateW,
        Token.startUpdate rawBoundaryW] fcfgW = .ok l ∧
      [Section.header, Section.body uW, Section.footer] = Section.header ::
        (List.intersperse Section.join (l.map Section.body) ++ [Section.footer]) ∧
      List.count Section.header [Section.header, Section.body uW, Section.footer] = 1 ∧
      List.count Section.footer [Section.header, Section.body uW, Section.footer] = 1 ∧
      List.countP isBodySection [Section.header, Section.body uW, Section.footer] = l.length ∧
      List.count Section.join [Section.header, Section.body uW, Section.footer] = l.length - 1 :=
  c5_template_sections [Token.startUpdate rawW, Token.startUpdate rawNoDateW,
    Token.startUpdate rawBoundaryW] fcfgW [Section.header, Section.body uW, Section.footer]
    (by rfl)


/-! ### Claim C6: decimal digit helpers for the ParseInt/FormatInt pair -/

/-- The character of a decimal digit is a digit character, carries its value,
and is no sign character. -/
theorem digitChar_facts (d : Nat) (hd : d < 10) :
    isDigitChar (Char.ofNat (48 + d)) = true ∧ digitVal (Char.ofNat (48 + d)) = d ∧
    ¬ Char.ofNat (48 + d) = '-' ∧ ¬ Char.ofNat (48 + d) = '+' := by
  interval_cases d <;> exact ⟨by decide, by decide, by decide, by decide⟩

/-- Every entry of `natDigitsLE` is a decimal digit. -/
theorem natDigitsLE_lt (fuel : Nat) : ∀ n, ∀ d ∈ natDigitsLE fuel n, d < 10 := by
  induction fuel with
  | zero => intro n d hd; simp [natDigitsLE] at hd
  | succ fuel ih =>
    intro n d hd
    unfold natDigitsLE at hd
    by_cases hn : n = 0
    · rw [if_pos hn] at hd
      simp at hd
    · rw [if_neg hn] at hd
      rcases List.mem_cons.mp hd with rfl | hd₂
      · exact Nat.mod_lt n (by norm_num)
      · exact ih (n / 10) d hd₂

/-- Folding the most-significant-first digit characters of `n` accumulates
exactly `n` on top of the scaled accumulator. -/
theorem foldl_digits (fuel : Nat) : ∀ n a, n ≤ fuel →
    ((natDigitsLE fuel n).reverse.map (fun d => Char.ofNat (48 + d))).foldl
      (fun a c => 10 * a + digitVal c) a = a * 10 ^ (natDigitsLE fuel n).length + n := by
  induction fuel with
  | zero =>
    intro n a hn
    interval_cases n
    simp [natDigitsLE]
  | succ fuel ih =>
    intro n a hn
    by_cases h0 : n = 0
    · subst h0
      simp [natDigitsLE]
    · have hstep : natDigitsLE (fuel + 1) n = n % 10 :: natDigitsLE fuel (n / 10) := by
        rw [natDigitsLE, if_neg h0]
      rw [hstep, List.reverse_cons, List.map_append, List.foldl_append]
      have hdiv : n / 10 ≤ fuel :=
        Nat.le_of_lt_succ (Nat.lt_of_lt_of_le
          (Nat.div_lt_self (Nat.pos_of_ne_zero h0) (by norm_num)) hn)
      rw [ih (n / 10) a hdiv]
      simp only [List.map_cons, List.map_nil, List.foldl_cons, List.foldl_nil]
      rw [(digitChar_facts (n % 10) (Nat.mod_lt n (by norm_num))).2.1]
      rw [List.length_cons]
      have hmod := Nat.div_add_mod n 10
      calc 10 * (a * 10 ^ (natDigitsLE fuel (n / 10)).length + n / 10) + n % 10
          = a * (10 ^ (natDigitsLE fuel (n / 10)).length * 10) +
            (10 * (n / 10) + n % 10) := by ring
        _ = a * 10 ^ ((natDigitsLE fuel (n / 10)).length + 1) + n := by
            rw [hmod, pow_succ]

/-- `strconv.ParseUint` inverts `strconv.FormatUint` on every natural. -/
theorem parseUintDigits_formatNat (n : Nat) :
    parseUintDigits (formatNat n).data = some n := by
  by_cases h0 : n = 0
  · subst h0
    decide
  · unfold formatNat
    rw [if_neg h0]
    show parseUintDigits ((natDigitsLE n n).reverse.map (fun d => Char.ofNat (48 + d))) = some n
    have hne : ¬ (natDigitsLE n n).reverse.map (fun d => Char.ofNat (48 + d)) = [] := by
      rcases Nat.exists_eq_succ_of_ne_zero h0 with ⟨m, hm⟩
      intro hcon
      rw [List.map_eq_nil_iff, List.reverse_eq_nil_iff] at hcon
      rw [hm] at hcon
      rw [natDigitsLE, if_neg (by omega)] at hcon
      exact List.cons_ne_nil _ _ hcon
    unfold parseUintDigits
    rw [if_neg hne]
    have hall : ((natDigitsLE n n).reverse.map (fun d => Char.ofNat (48 + d))).all
        isDigitChar = true := by
      rw [List.all_eq_true]
      intro c hc
      rcases List.mem_map.mp hc with ⟨d, hd, rfl⟩
      exact (digitChar_facts d (natDigitsLE_lt n n d (List.mem_reverse.mp hd))).1
    rw [if_pos hall]
    rw [foldl_digits n n 0 (le_refl n)]
    simp

/-- Unfolding equation of `parseInt64` on a non-empty character list. -/
theorem parseInt64_eq_cons (s : String) (c : Char) (rest : List Char)
    (h : s.data = c :: rest) :
    parseInt64 s =
      (if c = '-' then
        match parseUintDigits rest with
        | none => none
        | some n => if n ≤ 2 ^ 63 then some (-(n : Int)) else none
      else if c = '+' then
        match parseUintDigits rest with
        | none => none
        | some n => if n ≤ 2 ^ 63 - 1 then some (n : Int) else none
      else
        match parseUintDigits (c :: rest) with
        | none => none
        | some n => if n ≤ 2 ^ 63 - 1 then some (n : Int) else none) := by
  unfold parseInt64
  rw [h]

/-- `strconv.ParseInt` inverts `strconv.FormatInt` on every signed 64-bit
value. -/
theorem parseInt64_formatInt (i : Int) (h₁ : -(2 ^ 63) ≤ i) (h₂ : i < 2 ^ 63) :
    parseInt64 (formatInt i) = some i := by
  have h63 : (2 : Int) ^ 63 = 9223372036854775808 := by norm_num
  have h63n : (2 : Nat) ^ 63 = 9223372036854775808 := by norm_num
  by_cases hneg : i < 0
  · unfold formatInt
    rw [if_pos hneg]
    have hdata : ("-" ++ formatNat i.natAbs).data = '-' :: (formatNat i.natAbs).data := by
      rw [String.data_append]
      rfl
    rw [parseInt64_eq_cons ("-" ++ formatNat i.natAbs) '-' (formatNat i.natAbs).data hdata]
    rw [if_pos rfl]
    simp only [parseUintDigits_formatNat]
    have hle : i.natAbs ≤ 2 ^ 63 := by omega
    rw [if_pos hle]
    have habs : ((i.natAbs : Int)) = -i := by omega
    rw [habs]
    simp
  · push_neg at hneg
    unfold formatInt
    rw [if_neg (not_lt.mpr hneg)]
    have hp := parseUintDigits_formatNat i.natAbs
    rcases hdata : (formatNat i.natAbs).data with - | ⟨c, rest⟩
    · rw [hdata] at hp
      simp [parseUintDigits] at hp
    · rw [hdata] at hp
      have hcons : ¬ (c :: rest) = ([] : List Char) := by simp
      have hall : (c :: rest).all isDigitChar = true := by
        by_contra hno
        unfold parseUintDigits at hp
        rw [if_neg hcons, if_neg hno] at hp
        exact absurd hp (by simp)
      have hcdig : isDigitChar c = true :=
        List.all_eq_true.mp hall c (List.mem_cons_self c rest)
      have hcm : ¬ c = '-' := by
        intro hcon
        rw [hcon] at hcdig
        exact absurd hcdig (by decide)
      have hcp : ¬ c = '+' := by
        intro hcon
        rw [hcon] at hcdig
        exact absurd hcdig (by decide)
      rw [parseInt64_eq_cons (formatNat i.natAbs) c rest hdata]
      rw [if_neg hcm, if_neg hcp]
      simp only [hp]
      have hle : i.natAbs ≤ 2 ^ 63 - 1 := by omega
      rw [if_pos hle]
      have habs : ((i.natAbs : Int)) = i := by omega
      rw [habs]


/-- C6: round-trip of the issued date: decoding the decimal attribute string
of any 64-bit timestamp through `date.UnmarshalXMLAttr` yields that
timestamp, and `Issued.MarshalJSON` re-emits it as the same quoted decimal
Unix-second string, not an ISO date. -/
theorem c6_date_roundtrip (ts : Int) (h₁ : -(2 ^ 63) ≤ ts) (h₂ : ts < 2 ^ 63) :
    dateUnmarshalXMLAttr (formatInt ts) = some ts ∧
    IssuedMarshalJSON (some ts) = some ("\"" ++ formatInt ts ++ "\"") :=
  ⟨parseInt64_formatInt ts h₁ h₂, rfl⟩

/-- Witness for C6 at the timestamp 1700000000. -/
theorem c6_date_roundtrip_witness :
    dateUnmarshalXMLAttr (formatInt 1700000000) = some 1700000000 ∧
    IssuedMarshalJSON (some 1700000000) = some ("\"" ++ formatInt 1700000000 ++ "\"") :=
  c6_date_roundtrip 1700000000 (by norm_num) (by norm_num)


/-! ### Claims C7-C10 -/

/-- A file system for C7: one loadable OBS package list whose middle line is
blank. -/
def fsLinesC7 : String → Option (List String) :=
  fun p => if p = "obs.packages"
    then some ["pkg-a|1.0|noarch", "", "pkg-b|2.0|x86_64"] else none

/-- C7 counterexample: the loader keeps the first pipe-delimited field of
every scanned line, so the blank middle line contributes an empty string,
where the claim says blank lines contribute nothing. -/
theorem c7_counterexample :
    readPackagesFile fsLinesC7 "obs.packages" = .ok ["pkg-a", "", "pkg-b"] ∧
    readPackagesFileSpec fsLinesC7 "obs.packages" = .ok ["pkg-a", "pkg-b"] ∧
    ¬ readPackagesFile fsLinesC7 "obs.packages" =
        readPackagesFileSpec fsLinesC7 "obs.packages" := by
  refine ⟨by rfl, by rfl, ?_⟩
  intro h
  rw [show readPackagesFile fsLinesC7 "obs.packages" =
      .ok ["pkg-a", "", "pkg-b"] from rfl,
    show readPackagesFileSpec fsLinesC7 "obs.packages" =
      .ok ["pkg-a", "pkg-b"] from rfl] at h
  simp at h

/-- C7 amended: for every loadable file, the loader returns the first
pipe-delimited field of every line's trimmed text, the blank lines included
(each contributing the empty string); the empty path yields the empty
allow-list and no error. -/
theorem c7_amended_loader (fsLines : String → Option (List String))
    (pkgFile : String) (lines : List String) (hne : ¬ pkgFile = "")
    (hfs : fsLines pkgFile = some lines) :
    readPackagesFile fsLines pkgFile =
      .ok (lines.map (fun line => firstPipeField (trimSpace line))) ∧
    readPackagesFile fsLines "" = .ok [] := by
  constructor
  · unfold readPackagesFile
    rw [if_neg hne, hfs]
  · rfl

/-- Witness for the amended C7 on the concrete package list file. -/
theorem c7_amended_loader_witness :
    readPackagesFile fsLinesC7 "obs.packages" =
      .ok (["pkg-a|1.0|noarch", "", "pkg-b|2.0|x86_64"].map
        (fun line => firstPipeField (trimSpace line))) ∧
    readPackagesFile fsLinesC7 "" = .ok [] :=
  c7_amended_loader fsLinesC7 "obs.packages"
    ["pkg-a|1.0|noarch", "", "pkg-b|2.0|x86_64"] (by simp) (by rfl)

/-- C8 evaluated at the failing input: with only the after-date flag set (to
"1700000000"), the CLI wiring routes the string through `WithBeforeTime`, so
the produced config has `beforeDate = 1700000000` and `afterDate` still at
its epoch-0 default, for every clock value and abstract layout parser -
against the claim, which expects `afterDate = 1700000000` and `beforeDate`
kept at its hundred-years default. -/
theorem c8_after_flag_miswired (timeParse : String → String → Except String Int)
    (fsLines : String → Option (List String)) (now100 : Int) :
    runEFilterConfig timeParse fsLines now100 "" "1700000000" "" false =
      .ok ⟨1700000000, 0, "", [], ""⟩ := by
  rfl

/-- C9 evaluated at the failing input: when the file cannot be opened,
`ParseFileToOutput` returns success (`nil`) with no output, for every path,
filter and output mode - against the claim, which expects a non-nil error to
surface. -/
theorem c9_open_failure_swallowed (f : FilterConfig) (jsonOut : Bool) (path : String) :
    ParseFileToOutput (fun _ => none) path f jsonOut = .ok none := rfl

/-- C10: every update `Parse` passes to its handler has a present issued
date and `Issued.MarshalJSON` succeeds on it, while on an absent date the
unguarded dereference has no defined result. -/
theorem c10_marshal_safety :
    (∀ (tokens : List Token) (f : FilterConfig) (l : List Update),
      parseCollect tokens f = .ok l →
      ∀ u ∈ l, u.issued.isSome ∧ (IssuedMarshalJSON u.issued).isSome) ∧
    IssuedMarshalJSON none = none := by
  constructor
  · intro tokens f l h u hu
    rcases parse_collect_mem tokens f [] l h u hu with hin | hpass
    · simp at hin
    · have hsome := passesFilter_issued_isSome f u hpass
      refine ⟨hsome, ?_⟩
      rcases hx : u.issued with - | d
      · rw [hx] at hsome
        simp at hsome
      · simp [IssuedMarshalJSON]
  · rfl

/-- Witness for C10 on a concrete emitted update. -/
theorem c10_marshal_safety_witness :
    (uW.issued.isSome ∧ (IssuedMarshalJSON uW.issued).isSome) ∧
    IssuedMarshalJSON none = none :=
  ⟨c10_marshal_safety.1 [Token.startUpdate rawW] fcfgW [uW] (by rfl) uW (by simp),
   c10_marshal_safety.2⟩

end UpdatesParser
